import Mathlib

/-!
Verification of the github-crawler acquisition engine.

Shallow embedding of `src/crawler.py`, `src/github_client.py`,
`src/repository.py` and `src/models.py`: pure data is translated to Lean
structures, the database to an association list keyed by `github_id`,
the crawler loops to fuel-indexed recursive functions that emit a trace
of observable events (fetches, flushes, rate-limit waits), and the
HTTP retry loop to a recursion over an attempt-indexed response oracle.
-/

namespace GithubCrawler

/-- Python `range(start, stop, step)` for a positive `step`, as a list. -/
def pyRange (start stop step : Nat) : List Nat :=
  (List.range ((stop - start + step - 1) / step)).map (fun k => start + step * k)

/-- Embedding of `generate_star_ranges` from `src/crawler.py`: the ordered
list of inclusive `(min_stars, max_stars)` slices. -/
def generate_star_ranges : List (Nat × Nat) :=
  ((pyRange 0 11 1).map (fun i => (i, i)))
  ++ ((pyRange 11 101 5).map (fun i => (i, i + 4)))
  ++ ((pyRange 101 1001 50).map (fun i => (i, i + 49)))
  ++ ((pyRange 1001 10001 200).map (fun i => (i, i + 199)))
  ++ ((pyRange 10001 100001 2000).map (fun i => (i, i + 1999)))
  ++ [(100001, 500000), (500001, 1000000)]

/-- Pairwise adjacency check: every consecutive pair of slices satisfies
`first.upper + 1 = second.lower`. -/
def contiguousB : List (Nat × Nat) → Bool
  | [] => true
  | [_] => true
  | a :: b :: rest => (a.2 + 1 == b.1) && contiguousB (b :: rest)

set_option maxRecDepth 20000 in
/-- C1: the slice sequence starts at lower bound 0, every slice has
`lower <= upper`, consecutive slices satisfy `upper + 1 = next lower`
(strictly ordered, non-overlapping, gapless), and the final slice's upper
bound is the configured maximum 1000000. -/
theorem generate_star_ranges_coverage :
    ((generate_star_ranges.map Prod.fst).head?.getD 1 = 0)
    ∧ (∀ p ∈ generate_star_ranges, p.1 ≤ p.2)
    ∧ contiguousB generate_star_ranges = true
    ∧ ((generate_star_ranges.map Prod.snd).getLast?.getD 0 = 1000000) := by
  decide

/-- Embedding of `RepositoryDTO` from `src/models.py`. -/
structure RepositoryDTO where
  github_id : String
  owner : String
  name : String
  star_count : Nat
deriving DecidableEq, Repr

/-- A persisted row of the `repositories` table (`Repository` in
`src/models.py`); timestamps are abstract clock values. -/
structure Row where
  owner : String
  name : String
  star_count : Nat
  crawled_at : Nat
  updated_at : Nat
deriving DecidableEq, Repr

/-- The database: an association list from `github_id` to the stored row. -/
abbrev DB := List (String × Row)

/-- Key sequence of the database. -/
def keys (db : DB) : List String := db.map Prod.fst

/-- Well-formedness: one row per `github_id`. -/
def keysNodup (db : DB) : Prop := (keys db).Nodup

/-- Lookup of the row stored under a key. -/
def dbFind : DB → String → Option Row
  | [], _ => none
  | (k, r) :: rest, key => if k = key then some r else dbFind rest key

/-- Number of rows stored under a key. -/
def countKey (db : DB) (k : String) : Nat := (keys db).count k

/-- Embedding of `RepositoryStore.get_count` (`SELECT COUNT(*)`). -/
def get_count (db : DB) : Nat := db.length

/-- One row of the PostgreSQL `INSERT ... ON CONFLICT ("github_id")
DO UPDATE` statement built by `upsert_batch`: on conflict the existing
row keeps its `crawled_at` and takes the new `owner`, `name`,
`star_count` and `updated_at`; otherwise a fresh row is appended. -/
def dbUpsert : DB → RepositoryDTO → Nat → DB
  | [], repo, now =>
      [(repo.github_id, ⟨repo.owner, repo.name, repo.star_count, now, now⟩)]
  | (k, row) :: rest, repo, now =>
      if k = repo.github_id then
        (k, ⟨repo.owner, repo.name, repo.star_count, row.crawled_at, now⟩) :: rest
      else
        (k, row) :: dbUpsert rest repo now

/-- Effect of executing the multi-row insert statement: rows are applied
in order. -/
def upsert_fold (db : DB) (records : List RepositoryDTO) (now : Nat) : DB :=
  records.foldl (fun d r => dbUpsert d r now) db

/-- Observable database session actions issued by `upsert_batch`. -/
inductive DbAction where
  | execInsert (records : List RepositoryDTO)
  | commit
deriving DecidableEq, Repr

/-- Embedding of `RepositoryStore.upsert_batch` from `src/repository.py`:
returns the new database state, the count of records processed, and the
session actions issued.  An empty batch returns 0 and issues nothing. -/
def upsert_batch (db : DB) (records : List RepositoryDTO) (now : Nat) :
    DB × Nat × List DbAction :=
  if records.isEmpty then (db, 0, [])
  else (upsert_fold db records now, records.length,
        [DbAction.execInsert records, DbAction.commit])

/-- The `crawled_at` value a row ends up with: kept from an existing row,
set to the insertion time for a fresh row. -/
def crawlOf : Option Row → Nat → Nat
  | some old, _ => old.crawled_at
  | none, now => now

/-- Last record of a batch carrying a given `github_id`, if any. -/
def lastRec : List RepositoryDTO → String → Option RepositoryDTO
  | [], _ => none
  | r :: rs, k =>
    match lastRec rs k with
    | some x => some x
    | none => if r.github_id = k then some r else none

theorem dbFind_dbUpsert_ne (db : DB) (r : RepositoryDTO) (now : Nat)
    (k : String) (hk : k ≠ r.github_id) :
    dbFind (dbUpsert db r now) k = dbFind db k := by
  induction db with
  | nil => simp [dbUpsert, dbFind, Ne.symm hk]
  | cons p rest ih =>
    obtain ⟨k', row⟩ := p
    by_cases h : k' = r.github_id
    · subst h
      simp [dbUpsert, dbFind, Ne.symm hk]
    · simp only [dbUpsert, if_neg h]
      by_cases h2 : k' = k
      · simp [dbFind, h2]
      · simp [dbFind, h2, ih]

theorem dbFind_dbUpsert_eq (db : DB) (r : RepositoryDTO) (now : Nat) :
    dbFind (dbUpsert db r now) r.github_id =
      some ⟨r.owner, r.name, r.star_count,
            crawlOf (dbFind db r.github_id) now, now⟩ := by
  induction db with
  | nil => simp [dbUpsert, dbFind, crawlOf]
  | cons p rest ih =>
    obtain ⟨k', row⟩ := p
    by_cases h : k' = r.github_id
    · subst h
      simp [dbUpsert, dbFind, crawlOf]
    · simp [dbUpsert, dbFind, h, ih]

theorem mem_keys_dbUpsert_self (db : DB) (r : RepositoryDTO) (now : Nat) :
    r.github_id ∈ keys (dbUpsert db r now) := by
  induction db with
  | nil => simp [dbUpsert, keys]
  | cons p rest ih =>
    obtain ⟨k', row⟩ := p
    by_cases h : k' = r.github_id
    · subst h
      simp [dbUpsert, keys]
    · simp only [dbUpsert, if_neg h, keys, List.map_cons, List.mem_cons]
      exact Or.inr ih

theorem mem_keys_dbUpsert_mono (db : DB) (r : RepositoryDTO) (now : Nat)
    (k : String) (hk : k ∈ keys db) :
    k ∈ keys (dbUpsert db r now) := by
  induction db with
  | nil => simp [keys] at hk
  | cons p rest ih =>
    obtain ⟨k', row⟩ := p
    by_cases h : k' = r.github_id
    · subst h
      simpa [dbUpsert, keys] using hk
    · simp only [keys, List.map_cons, List.mem_cons] at hk
      simp only [dbUpsert, if_neg h, keys, List.map_cons, List.mem_cons]
      rcases hk with hk | hk
      · exact Or.inl hk
      · exact Or.inr (ih hk)

theorem keys_dbUpsert_of_mem (db : DB) (r : RepositoryDTO) (now : Nat)
    (hmem : r.github_id ∈ keys db) :
    keys (dbUpsert db r now) = keys db := by
  induction db with
  | nil => simp [keys] at hmem
  | cons p rest ih =>
    obtain ⟨k', row⟩ := p
    by_cases h : k' = r.github_id
    · subst h
      simp [dbUpsert, keys]
    · simp only [keys, List.map_cons, List.mem_cons] at hmem
      rcases hmem with hmem | hmem
      · exact absurd hmem.symm h
      · simp only [dbUpsert, if_neg h, keys, List.map_cons]
        rw [show List.map Prod.fst (dbUpsert rest r now) = keys (dbUpsert rest r now) from rfl,
            ih hmem]
        rfl

theorem keys_dbUpsert_of_not_mem (db : DB) (r : RepositoryDTO) (now : Nat)
    (hmem : r.github_id ∉ keys db) :
    keys (dbUpsert db r now) = keys db ++ [r.github_id] := by
  induction db with
  | nil => simp [dbUpsert, keys]
  | cons p rest ih =>
    obtain ⟨k', row⟩ := p
    by_cases h : k' = r.github_id
    · exact absurd (by simp [keys, h]) hmem
    · have hrest : r.github_id ∉ keys rest := by
        intro hc
        exact hmem (by simp [keys] at hc ⊢; exact Or.inr hc)
      simp only [dbUpsert, if_neg h, keys, List.map_cons]
      rw [show List.map Prod.fst (dbUpsert rest r now) = keys (dbUpsert rest r now) from rfl,
          ih hrest]
      rfl

theorem keysNodup_dbUpsert (db : DB) (r : RepositoryDTO) (now : Nat)
    (hdb : keysNodup db) : keysNodup (dbUpsert db r now) := by
  by_cases hmem : r.github_id ∈ keys db
  · unfold keysNodup
    rw [keys_dbUpsert_of_mem db r now hmem]
    exact hdb
  · unfold keysNodup at hdb ⊢
    rw [keys_dbUpsert_of_not_mem db r now hmem]
    simp [List.nodup_append, hdb, hmem]

theorem dbFind_eq_none_of_not_mem (db : DB) (k : String)
    (hk : k ∉ keys db) : dbFind db k = none := by
  induction db with
  | nil => rfl
  | cons p rest ih =>
    obtain ⟨k', row⟩ := p
    simp only [keys, List.map_cons, List.mem_cons] at hk
    push_neg at hk
    have h1 : ¬ k' = k := fun h => hk.1 h.symm
    simp only [dbFind, if_neg h1]
    exact ih hk.2

theorem upsert_fold_cons (db : DB) (r : RepositoryDTO)
    (rs : List RepositoryDTO) (now : Nat) :
    upsert_fold db (r :: rs) now = upsert_fold (dbUpsert db r now) rs now := rfl

theorem dbFind_upsert_fold (b : List RepositoryDTO) (db : DB)
    (k : String) (now : Nat) :
    dbFind (upsert_fold db b now) k =
      match lastRec b k with
      | some r => some ⟨r.owner, r.name, r.star_count, crawlOf (dbFind db k) now, now⟩
      | none => dbFind db k := by
  induction b generalizing db with
  | nil => simp [upsert_fold, lastRec]
  | cons r rs ih =>
    rw [upsert_fold_cons, ih]
    by_cases hk : r.github_id = k
    · subst hk
      cases hL : lastRec rs r.github_id with
      | some x =>
        simp [lastRec, hL, dbFind_dbUpsert_eq, crawlOf]
      | none =>
        simp [lastRec, hL, dbFind_dbUpsert_eq]
    · have hne : k ≠ r.github_id := fun h => hk h.symm
      cases hL : lastRec rs k with
      | some x =>
        simp [lastRec, hL, dbFind_dbUpsert_ne db r now k hne]
      | none =>
        simp [lastRec, hL, hk, dbFind_dbUpsert_ne db r now k hne]

theorem mem_keys_upsert_fold_mono (b : List RepositoryDTO) (db : DB)
    (now : Nat) (k : String) (hk : k ∈ keys db) :
    k ∈ keys (upsert_fold db b now) := by
  induction b generalizing db with
  | nil => exact hk
  | cons r rs ih =>
    rw [upsert_fold_cons]
    exact ih _ (mem_keys_dbUpsert_mono db r now k hk)

theorem mem_keys_upsert_fold_all (b : List RepositoryDTO) (db : DB)
    (now : Nat) (r : RepositoryDTO) (hr : r ∈ b) :
    r.github_id ∈ keys (upsert_fold db b now) := by
  induction b generalizing db with
  | nil => cases hr
  | cons x xs ih =>
    rw [upsert_fold_cons]
    rcases List.mem_cons.mp hr with h | h
    · subst h
      exact mem_keys_upsert_fold_mono xs _ now _ (mem_keys_dbUpsert_self db r now)
    · exact ih _ h

theorem keys_upsert_fold_of_mem (b : List RepositoryDTO) (db : DB)
    (now : Nat) (hall : ∀ r ∈ b, r.github_id ∈ keys db) :
    keys (upsert_fold db b now) = keys db := by
  induction b generalizing db with
  | nil => rfl
  | cons r rs ih =>
    rw [upsert_fold_cons]
    have hmem : r.github_id ∈ keys db := hall r (List.mem_cons_self r rs)
    have hkeys := keys_dbUpsert_of_mem db r now hmem
    rw [ih (dbUpsert db r now) (fun x hx => by
      rw [hkeys]; exact hall x (List.mem_cons_of_mem r hx))]
    exact hkeys

theorem keysNodup_upsert_fold (b : List RepositoryDTO) (db : DB)
    (now : Nat) (hdb : keysNodup db) : keysNodup (upsert_fold db b now) := by
  induction b generalizing db with
  | nil => exact hdb
  | cons r rs ih =>
    rw [upsert_fold_cons]
    exact ih _ (keysNodup_dbUpsert db r now hdb)

/-- Projection of a row that forgets the `updated_at` timestamp. -/
def projRow (r : Row) : String × String × Nat × Nat :=
  (r.owner, r.name, r.star_count, r.crawled_at)

/-- Projection of the whole database that forgets `updated_at`. -/
def projDB (db : DB) : List (String × String × String × Nat × Nat) :=
  db.map (fun p => (p.1, projRow p.2))

theorem projDB_ext (d1 : DB) : ∀ d2 : DB, keysNodup d1 → keys d1 = keys d2 →
    (∀ k, (dbFind d1 k).map projRow = (dbFind d2 k).map projRow) →
    projDB d1 = projDB d2 := by
  induction d1 with
  | nil =>
    intro d2 _ hkeys _
    cases d2 with
    | nil => rfl
    | cons p t => simp [keys] at hkeys
  | cons p t1 ih =>
    intro d2 hnd hkeys hfind
    obtain ⟨k, r⟩ := p
    cases d2 with
    | nil => simp [keys] at hkeys
    | cons q t2 =>
      obtain ⟨k2, r2⟩ := q
      simp only [keys, List.map_cons, List.cons.injEq] at hkeys
      obtain ⟨hk2, htk⟩ := hkeys
      subst hk2
      have hhead : projRow r = projRow r2 := by
        have h := hfind k
        simp [dbFind] at h
        exact h
      have hnd1 : keysNodup t1 := by
        unfold keysNodup at hnd ⊢
        simpa [keys] using (List.nodup_cons.mp hnd).2
      have hknot1 : k ∉ keys t1 := by
        unfold keysNodup at hnd
        simpa [keys] using (List.nodup_cons.mp hnd).1
      have hknot2 : k ∉ keys t2 := by
        unfold keys at hknot1 ⊢
        rw [← htk]; exact hknot1
      have htail : ∀ k', (dbFind t1 k').map projRow = (dbFind t2 k').map projRow := by
        intro k'
        by_cases hk' : k = k'
        · subst hk'
          rw [dbFind_eq_none_of_not_mem t1 k hknot1,
              dbFind_eq_none_of_not_mem t2 k hknot2]
        · have := hfind k'
          simpa [dbFind, if_neg hk'] using this
      simp only [projDB, List.map_cons, List.cons.injEq]
      refine ⟨by rw [hhead], ?_⟩
      exact ih t2 hnd1 htk htail

/-- C2: `upsert_batch` is idempotent on the persisted state.  Upserting
the same `github_id` twice (possibly with a changed `star_count`) leaves
exactly one row for that id holding the latest `star_count`; re-applying
an identical batch changes nothing except the `updated_at` timestamp
(the projection forgetting `updated_at` is unchanged); and every call
returns the number of records in the batch. -/
theorem upsert_batch_idempotent :
    (∀ (db : DB) (r1 r2 : RepositoryDTO) (now1 now2 : Nat),
       keysNodup db → r1.github_id = r2.github_id →
       countKey (upsert_batch (upsert_batch db [r1] now1).1 [r2] now2).1 r2.github_id = 1
       ∧ (dbFind (upsert_batch (upsert_batch db [r1] now1).1 [r2] now2).1
            r2.github_id).map Row.star_count = some r2.star_count)
    ∧ (∀ (db : DB) (b : List RepositoryDTO) (now1 now2 : Nat),
       keysNodup db →
       projDB (upsert_batch (upsert_batch db b now1).1 b now2).1
         = projDB (upsert_batch db b now1).1)
    ∧ (∀ (db : DB) (b : List RepositoryDTO) (now : Nat),
       (upsert_batch db b now).2.1 = b.length) := by
  refine ⟨?_, ?_, ?_⟩
  · intro db r1 r2 now1 now2 hdb _hid
    have h1 : (upsert_batch db [r1] now1).1 = dbUpsert db r1 now1 := rfl
    have h2 : (upsert_batch (dbUpsert db r1 now1) [r2] now2).1
        = dbUpsert (dbUpsert db r1 now1) r2 now2 := rfl
    rw [h1, h2]
    constructor
    · have hnd2 : keysNodup (dbUpsert (dbUpsert db r1 now1) r2 now2) :=
        keysNodup_dbUpsert _ _ _ (keysNodup_dbUpsert _ _ _ hdb)
      have hmem : r2.github_id ∈ keys (dbUpsert (dbUpsert db r1 now1) r2 now2) :=
        mem_keys_dbUpsert_self _ _ _
      exact List.count_eq_one_of_mem hnd2 hmem
    · rw [dbFind_dbUpsert_eq]
      rfl
  · intro db b now1 now2 hdb
    cases b with
    | nil => rfl
    | cons x xs =>
      have hred : ∀ (d : DB) (now : Nat),
          (upsert_batch d (x :: xs) now).1 = upsert_fold d (x :: xs) now := by
        intro d now; rfl
      rw [hred, hred]
      have hnd1 : keysNodup (upsert_fold db (x :: xs) now1) :=
        keysNodup_upsert_fold _ _ _ hdb
      have hnd2 : keysNodup (upsert_fold (upsert_fold db (x :: xs) now1) (x :: xs) now2) :=
        keysNodup_upsert_fold _ _ _ hnd1
      refine projDB_ext _ _ hnd2 ?_ ?_
      · exact keys_upsert_fold_of_mem _ _ _
          (fun r hr => mem_keys_upsert_fold_all _ _ _ r hr)
      · intro k
        rw [dbFind_upsert_fold (x :: xs) (upsert_fold db (x :: xs) now1) k now2,
            dbFind_upsert_fold (x :: xs) db k now1]
        cases hL : lastRec (x :: xs) k with
        | none => rfl
        | some r => simp [crawlOf, projRow]
  · intro db b now
    cases b with
    | nil => rfl
    | cons x xs => rfl

/-- C2 witness: a concrete double upsert of the same id with changed
star count, a concrete re-applied batch, and a concrete count. -/
theorem upsert_batch_idempotent_witness :
    countKey (upsert_batch (upsert_batch [] [⟨"id1", "o", "n", 3⟩] 1).1
        [⟨"id1", "o", "n", 9⟩] 2).1 "id1" = 1
    ∧ (dbFind (upsert_batch (upsert_batch [] [⟨"id1", "o", "n", 3⟩] 1).1
        [⟨"id1", "o", "n", 9⟩] 2).1 "id1").map Row.star_count = some 9
    ∧ projDB (upsert_batch (upsert_batch [] [⟨"id1", "o", "n", 3⟩] 1).1
        [⟨"id1", "o", "n", 3⟩] 2).1 = projDB (upsert_batch [] [⟨"id1", "o", "n", 3⟩] 1).1
    ∧ (upsert_batch [] [⟨"id1", "o", "n", 3⟩] 5).2.1 = 1 := by
  refine ⟨?_, ?_, ?_, ?_⟩
  · exact (upsert_batch_idempotent.1 [] ⟨"id1", "o", "n", 3⟩ ⟨"id1", "o", "n", 9⟩
      1 2 List.nodup_nil rfl).1
  · exact (upsert_batch_idempotent.1 [] ⟨"id1", "o", "n", 3⟩ ⟨"id1", "o", "n", 9⟩
      1 2 List.nodup_nil rfl).2
  · exact upsert_batch_idempotent.2.1 [] [⟨"id1", "o", "n", 3⟩] 1 2 List.nodup_nil
  · exact upsert_batch_idempotent.2.2 [] [⟨"id1", "o", "n", 3⟩] 5

/-- C10: upserting an empty batch returns 0, leaves the database
unchanged, and issues no insert statement and no commit. -/
theorem upsert_batch_empty (db : DB) (now : Nat) :
    upsert_batch db [] now = (db, 0, []) := rfl

/-- Embedding of `Config` from `src/config.py`: the fields the core logic
reads. -/
structure Config where
  repos_target : Nat
  page_size : Nat
  max_retries : Nat
  rate_limit_buffer : Nat
  batch_size : Nat
deriving DecidableEq, Repr

/-- Embedding of `RateLimitInfo` from `src/github_client.py`. -/
structure RateLimitInfo where
  remaining : Nat
  reset_at : String
deriving DecidableEq, Repr

/-- Embedding of `PageInfo` from `src/github_client.py`. -/
structure PageInfo where
  has_next_page : Bool
  end_cursor : Option String
deriving DecidableEq, Repr

/-- Embedding of `SearchResult` from `src/github_client.py`. -/
structure SearchResult where
  repositories : List RepositoryDTO
  page_info : PageInfo
  rate_limit : RateLimitInfo
deriving DecidableEq, Repr

/-- One `Repository` node of the GraphQL response. -/
structure RepoNode where
  id : String
  owner_login : String
  name : String
  stargazerCount : Nat
deriving DecidableEq, Repr

/-- Embedding of `RepositoryDTO.from_github_response` from `src/models.py`. -/
def from_github_response (n : RepoNode) : RepositoryDTO :=
  ⟨n.id, n.owner_login, n.name, n.stargazerCount⟩

/-- The parsed JSON payload of one GraphQL search response: the `search`
and `rateLimit` members (null nodes appear as `none`). -/
structure GraphQLPage where
  nodes : List (Option RepoNode)
  hasNextPage : Bool
  endCursor : Option String
  rateRemaining : Nat
  rateResetAt : String
deriving DecidableEq, Repr

/-- One HTTP response as seen by `_make_request`: a status code, the
optional GraphQL `errors` member (first error message), and the payload. -/
structure HttpResponse where
  status_code : Nat
  errors : Option String
  page : GraphQLPage
deriving DecidableEq, Repr

/-- Exception class raised by `_make_request`: `runtime` for Python
`RuntimeError` (not caught by the retry loop) and `request` for
`requests.exceptions.RequestException` (caught and retried). -/
inductive ReqError where
  | runtime (msg : String)
  | request (msg : String)
deriving DecidableEq, Repr

/-- Embedding of `GitHubClient._make_request` from `src/github_client.py`:
401 raises `RuntimeError` immediately; a 5xx status raises
`RequestException`; any other 4xx status makes `raise_for_status` raise
`HTTPError`, a subclass of `RequestException`; a syntactically valid
response carrying a GraphQL `errors` member raises `RuntimeError`. -/
def make_request (resp : HttpResponse) : Except ReqError GraphQLPage :=
  if resp.status_code = 401 then
    Except.error (ReqError.runtime "Unauthorized - check your GITHUB_TOKEN")
  else if 500 ≤ resp.status_code then
    Except.error (ReqError.request ("Server error: " ++ toString resp.status_code))
  else if 400 ≤ resp.status_code then
    Except.error (ReqError.request ("HTTP client error: " ++ toString resp.status_code))
  else
    match resp.errors with
    | some msg => Except.error (ReqError.runtime ("GraphQL error: " ++ msg))
    | none => Except.ok resp.page

/-- Embedding of `GitHubClient._parse_response`: null nodes are filtered
out, the rest become DTOs. -/
def parse_response (p : GraphQLPage) : SearchResult :=
  { repositories := p.nodes.filterMap (fun n => n.map from_github_response),
    page_info := ⟨p.hasNextPage, p.endCursor⟩,
    rate_limit := ⟨p.rateRemaining, p.rateResetAt⟩ }

/-- Result of `fetch_repositories`: a parsed page, or a `RuntimeError`
message propagating to the caller. -/
inductive FetchOutcome where
  | ok (r : SearchResult)
  | err (msg : String)
deriving DecidableEq, Repr

/-- The retry loop of `fetch_repositories`, over an attempt-indexed
response oracle.  Returns the outcome together with the list of backoff
sleeps performed (`2 ** retries` seconds before each retry). -/
def fetchAux (responses : Nat → HttpResponse) (max_retries : Nat)
    (i retries : Nat) : FetchOutcome × List Nat :=
  match make_request (responses i) with
  | Except.ok page => (FetchOutcome.ok (parse_response page), [])
  | Except.error (ReqError.runtime m) => (FetchOutcome.err m, [])
  | Except.error (ReqError.request m) =>
      if h : max_retries < retries + 1 then
        (FetchOutcome.err ("Max retries exceeded: " ++ m), [])
      else
        let rest := fetchAux responses max_retries (i + 1) (retries + 1)
        (rest.1, 2 ^ (retries + 1) :: rest.2)
termination_by max_retries - retries
decreasing_by
  omega

/-- Embedding of `GitHubClient.fetch_repositories` from
`src/github_client.py`. -/
def fetch_repositories (responses : Nat → HttpResponse) (max_retries : Nat) :
    FetchOutcome × List Nat :=
  fetchAux responses max_retries 0 0

/-- Embedding of `GitHubClient.should_wait_for_rate_limit`. -/
def should_wait_for_rate_limit (cfg : Config) (rl : RateLimitInfo) : Bool :=
  rl.remaining < cfg.rate_limit_buffer

theorem fetchAux_fail_all (responses : Nat → HttpResponse)
    (max_retries : Nat) (msgs : Nat → String) :
    ∀ (d i retries : Nat), retries + d = max_retries →
    (∀ j, j ≤ d →
      make_request (responses (i + j)) = Except.error (ReqError.request (msgs (i + j)))) →
    fetchAux responses max_retries i retries =
      (FetchOutcome.err ("Max retries exceeded: " ++ msgs (i + d)),
       (List.range d).map (fun j => 2 ^ (retries + 1 + j))) := by
  intro d
  induction d with
  | zero =>
    intro i retries hret hall
    have h0 := hall 0 (le_refl 0)
    rw [show i + 0 = i from rfl] at h0
    rw [fetchAux.eq_def, h0]
    have hlt : max_retries < retries + 1 := by omega
    simp [dif_pos hlt]
  | succ d ih =>
    intro i retries hret hall
    have h0 := hall 0 (Nat.zero_le _)
    rw [show i + 0 = i from rfl] at h0
    rw [fetchAux.eq_def, h0]
    dsimp only
    have hlt : ¬ max_retries < retries + 1 := by omega
    rw [dif_neg hlt]
    rw [ih (i + 1) (retries + 1) (by omega) (fun j hj => by
      have hj1 := hall (j + 1) (by omega)
      rw [show i + (j + 1) = i + 1 + j from by omega] at hj1
      exact hj1)]
    refine Prod.ext ?_ ?_
    · show FetchOutcome.err ("Max retries exceeded: " ++ msgs (i + 1 + d))
        = FetchOutcome.err ("Max retries exceeded: " ++ msgs (i + (d + 1)))
      rw [show i + 1 + d = i + (d + 1) from by omega]
    · show 2 ^ (retries + 1) :: (List.range d).map (fun j => 2 ^ (retries + 1 + 1 + j))
        = (List.range (d + 1)).map (fun j => 2 ^ (retries + 1 + j))
      rw [List.range_succ_eq_map, List.map_cons, List.map_map]
      refine congrArg₂ _ (by rw [Nat.add_zero]) ?_
      refine List.map_congr_left ?_
      intro j _
      show 2 ^ (retries + 1 + 1 + j) = 2 ^ (retries + 1 + (j + 1))
      congr 1
      omega

theorem fetchAux_success (responses : Nat → HttpResponse)
    (max_retries : Nat) (msgs : Nat → String) (page : GraphQLPage) :
    ∀ (k i retries : Nat), retries + k ≤ max_retries →
    (∀ j, j < k →
      make_request (responses (i + j)) = Except.error (ReqError.request (msgs (i + j)))) →
    make_request (responses (i + k)) = Except.ok page →
    fetchAux responses max_retries i retries =
      (FetchOutcome.ok (parse_response page),
       (List.range k).map (fun j => 2 ^ (retries + 1 + j))) := by
  intro k
  induction k with
  | zero =>
    intro i retries _ _ hok
    rw [show i + 0 = i from rfl] at hok
    rw [fetchAux.eq_def, hok]
    simp
  | succ k ih =>
    intro i retries hle hfail hok
    have h0 := hfail 0 (Nat.succ_pos k)
    rw [show i + 0 = i from rfl] at h0
    rw [fetchAux.eq_def, h0]
    dsimp only
    have hlt : ¬ max_retries < retries + 1 := by omega
    rw [dif_neg hlt]
    rw [ih (i + 1) (retries + 1) (by omega)
      (fun j hj => by
        have hj1 := hfail (j + 1) (by omega)
        rw [show i + (j + 1) = i + 1 + j from by omega] at hj1
        exact hj1)
      (by rw [show i + 1 + k = i + (k + 1) from by omega]; exact hok)]
    refine Prod.ext rfl ?_
    show 2 ^ (retries + 1) :: (List.range k).map (fun j => 2 ^ (retries + 1 + 1 + j))
      = (List.range (k + 1)).map (fun j => 2 ^ (retries + 1 + j))
    rw [List.range_succ_eq_map, List.map_cons, List.map_map]
    refine congrArg₂ _ (by rw [Nat.add_zero]) ?_
    refine List.map_congr_left ?_
    intro j _
    show 2 ^ (retries + 1 + 1 + j) = 2 ^ (retries + 1 + (j + 1))
    congr 1
    omega

/-- C4: in an execution whose attempts fail with server-side (5xx) or
transport errors, each retry `k` is preceded by a doubling backoff sleep
`2 ** k` (2s, 4s, 8s, ...); a success within `max_retries` returns the
parsed page; failing more than `max_retries` times raises an
unrecoverable `Max retries exceeded` error to the caller. -/
theorem fetch_repositories_retry_backoff :
    (∀ (responses : Nat → HttpResponse) (max_retries : Nat) (msgs : Nat → String),
      (∀ j, j ≤ max_retries →
        make_request (responses j) = Except.error (ReqError.request (msgs j))) →
      fetch_repositories responses max_retries =
        (FetchOutcome.err ("Max retries exceeded: " ++ msgs max_retries),
         (List.range max_retries).map (fun j => 2 ^ (j + 1))))
    ∧ (∀ (responses : Nat → HttpResponse) (max_retries k : Nat)
        (msgs : Nat → String) (page : GraphQLPage),
      k ≤ max_retries →
      (∀ j, j < k →
        make_request (responses j) = Except.error (ReqError.request (msgs j))) →
      make_request (responses k) = Except.ok page →
      fetch_repositories responses max_retries =
        (FetchOutcome.ok (parse_response page),
         (List.range k).map (fun j => 2 ^ (j + 1)))) := by
  constructor
  · intro responses max_retries msgs hall
    have h := fetchAux_fail_all responses max_retries msgs max_retries 0 0 (by omega)
      (fun j hj => by simpa using hall j hj)
    rw [fetch_repositories, h]
    refine congrArg₂ _ ?_ ?_
    · rw [Nat.zero_add]
    · refine List.map_congr_left ?_
      intro j _
      congr 1
      omega
  · intro responses max_retries k msgs page hk hfail hok
    have h := fetchAux_success responses max_retries msgs page k 0 0 (by omega)
      (fun j hj => by simpa using hfail j hj)
      (by simpa using hok)
    rw [fetch_repositories, h]
    refine congrArg₂ _ rfl ?_
    refine List.map_congr_left ?_
    intro j _
    congr 1
    omega

/-- C4 witness: a permanently failing 500-status oracle with two allowed
retries gives the sleep schedule [2, 4] and fails fatally; the same
oracle fixed after one failure succeeds after a single 2s backoff. -/
theorem fetch_repositories_retry_backoff_witness :
    fetch_repositories (fun _ => ⟨500, none, ⟨[], false, none, 0, ""⟩⟩) 2
      = (FetchOutcome.err "Max retries exceeded: Server error: 500", [2, 4])
    ∧ fetch_repositories
        (fun i => if i = 0 then ⟨500, none, ⟨[], false, none, 0, ""⟩⟩
                  else ⟨200, none, ⟨[], false, none, 4999, "t"⟩⟩) 2
      = (FetchOutcome.ok (parse_response ⟨[], false, none, 4999, "t"⟩), [2]) := by
  constructor
  · exact fetch_repositories_retry_backoff.1
      (fun _ => ⟨500, none, ⟨[], false, none, 0, ""⟩⟩) 2
      (fun _ => "Server error: 500")
      (fun j _ => by
        show make_request ⟨500, none, ⟨[], false, none, 0, ""⟩⟩
          = Except.error (ReqError.request "Server error: 500")
        rfl)
  · exact fetch_repositories_retry_backoff.2
      (fun i => if i = 0 then ⟨500, none, ⟨[], false, none, 0, ""⟩⟩
                else ⟨200, none, ⟨[], false, none, 4999, "t"⟩⟩) 2 1
      (fun _ => "Server error: 500") ⟨[], false, none, 4999, "t"⟩
      (by omega)
      (fun j hj => by
        have hj0 : j = 0 := by omega
        subst hj0
        rfl)
      rfl

/-- C6: `fetch_repositories` fails immediately, with no retry and no
backoff sleep, on an authorization failure (HTTP 401) and on a
syntactically valid response reporting a GraphQL query error; the error
propagates on the first attempt. -/
theorem fetch_repositories_fatal_immediate :
    (∀ (responses : Nat → HttpResponse) (max_retries : Nat),
      (responses 0).status_code = 401 →
      fetch_repositories responses max_retries =
        (FetchOutcome.err "Unauthorized - check your GITHUB_TOKEN", []))
    ∧ (∀ (responses : Nat → HttpResponse) (max_retries : Nat) (msg : String),
      (responses 0).status_code < 400 →
      (responses 0).errors = some msg →
      fetch_repositories responses max_retries =
        (FetchOutcome.err ("GraphQL error: " ++ msg), [])) := by
  constructor
  · intro responses max_retries h401
    have hmk : make_request (responses 0)
        = Except.error (ReqError.runtime "Unauthorized - check your GITHUB_TOKEN") := by
      rw [make_request, if_pos h401]
    rw [fetch_repositories, fetchAux.eq_def, hmk]
  · intro responses max_retries msg hlt herr
    have hmk : make_request (responses 0)
        = Except.error (ReqError.runtime ("GraphQL error: " ++ msg)) := by
      rw [make_request, if_neg (by omega), if_neg (by omega), if_neg (by omega), herr]
    rw [fetch_repositories, fetchAux.eq_def, hmk]

/-- C6 witness: a 401 response and a 200 response with a GraphQL error
both fail on the first attempt with no sleeps. -/
theorem fetch_repositories_fatal_immediate_witness :
    fetch_repositories (fun _ => ⟨401, none, ⟨[], false, none, 0, ""⟩⟩) 5
      = (FetchOutcome.err "Unauthorized - check your GITHUB_TOKEN", [])
    ∧ fetch_repositories (fun _ => ⟨200, some "bad query", ⟨[], false, none, 0, ""⟩⟩) 5
      = (FetchOutcome.err "GraphQL error: bad query", []) := by
  constructor
  · exact fetch_repositories_fatal_immediate.1
      (fun _ => ⟨401, none, ⟨[], false, none, 0, ""⟩⟩) 5 rfl
  · exact fetch_repositories_fatal_immediate.2
      (fun _ => ⟨200, some "bad query", ⟨[], false, none, 0, ""⟩⟩) 5 "bad query"
      (by decide) rfl

/-- C9: a 4xx client-error status other than 401 with no GraphQL error
body raises `HTTPError`, a `RequestException` subclass, so it is
classified transient: it is retried with exponential backoff rather than
failed immediately, and only exhausting `max_retries` fails the call. -/
theorem client_error_4xx_retried :
    (∀ resp : HttpResponse, 400 ≤ resp.status_code → resp.status_code < 500 →
      resp.status_code ≠ 401 →
      make_request resp
        = Except.error (ReqError.request ("HTTP client error: " ++ toString resp.status_code)))
    ∧ (∀ (responses : Nat → HttpResponse) (max_retries : Nat) (page : GraphQLPage),
      1 ≤ max_retries →
      400 ≤ (responses 0).status_code → (responses 0).status_code < 500 →
      (responses 0).status_code ≠ 401 →
      make_request (responses 1) = Except.ok page →
      fetch_repositories responses max_retries =
        (FetchOutcome.ok (parse_response page), [2]))
    ∧ (∀ (responses : Nat → HttpResponse) (max_retries : Nat),
      (∀ j, j ≤ max_retries → 400 ≤ (responses j).status_code ∧
        (responses j).status_code < 500 ∧ (responses j).status_code ≠ 401) →
      fetch_repositories responses max_retries =
        (FetchOutcome.err ("Max retries exceeded: HTTP client error: "
            ++ toString (responses max_retries).status_code),
         (List.range max_retries).map (fun j => 2 ^ (j + 1)))) := by
  have hmk : ∀ resp : HttpResponse, 400 ≤ resp.status_code → resp.status_code < 500 →
      resp.status_code ≠ 401 →
      make_request resp
        = Except.error (ReqError.request ("HTTP client error: " ++ toString resp.status_code)) := by
    intro resp h4 h5 h401
    rw [make_request, if_neg h401, if_neg (by omega), if_pos h4]
  refine ⟨hmk, ?_, ?_⟩
  · intro responses max_retries page hmr h4 h5 h401 hok
    have h := fetchAux_success responses max_retries
      (fun j => "HTTP client error: " ++ toString (responses j).status_code) page 1 0 0
      (by omega)
      (fun j hj => by
        have hj0 : j = 0 := by omega
        subst hj0
        simpa using hmk (responses 0) h4 h5 h401)
      (by simpa using hok)
    rw [fetch_repositories, h]
    rfl
  · intro responses max_retries hall
    have h := fetchAux_fail_all responses max_retries
      (fun j => "HTTP client error: " ++ toString (responses j).status_code) max_retries 0 0
      (by omega)
      (fun j hj => by
        obtain ⟨h4, h5, h401⟩ := hall j (by omega)
        simpa using hmk (responses (0 + j)) (by simpa using h4) (by simpa using h5)
          (by simpa using h401))
    rw [fetch_repositories, h]
    refine congrArg₂ _ ?_ ?_
    · rw [Nat.zero_add]
      rfl
    · refine List.map_congr_left ?_
      intro j _
      congr 1
      omega

/-- C9 witness: a permanently 404-failing oracle with one allowed retry
sleeps [2] then fails; a 404 then success completes after one retry. -/
theorem client_error_4xx_retried_witness :
    make_request ⟨404, none, ⟨[], false, none, 0, ""⟩⟩
      = Except.error (ReqError.request "HTTP client error: 404")
    ∧ fetch_repositories (fun _ => ⟨404, none, ⟨[], false, none, 0, ""⟩⟩) 1
      = (FetchOutcome.err "Max retries exceeded: HTTP client error: 404", [2]) := by
  constructor
  · exact client_error_4xx_retried.1 ⟨404, none, ⟨[], false, none, 0, ""⟩⟩
      (by decide) (by decide) (by decide)
  · exact client_error_4xx_retried.2.2 (fun _ => ⟨404, none, ⟨[], false, none, 0, ""⟩⟩) 1
      (fun j _ => by
        show 400 ≤ (404 : Nat) ∧ (404 : Nat) < 500 ∧ (404 : Nat) ≠ 401
        decide)

/-- The remote search API as a deterministic oracle: a successful page
for every (query, cursor) pair. -/
structure Env where
  fetch : String → Option String → SearchResult

/-- Observable events of a crawl: a page fetch (with the returned
result), a database flush handing a batch to `upsert_batch`, and a
blocking rate-limit wait until the given reset time. -/
inductive Event where
  | fetchE (query : String) (cursor : Option String) (result : SearchResult)
  | flushE (records : List RepositoryDTO)
  | waitE (reset_at : String)
deriving DecidableEq, Repr

/-- The buffer-flush block of the loop (`src/crawler.py` lines 111-117):
when the buffer has reached `batch_size` it is handed to `upsert_batch`
and cleared; returns the new database, the new buffer, and the flush
events issued. -/
def flushStep (cfg : Config) (db : DB) (buffer1 : List RepositoryDTO) :
    DB × List RepositoryDTO × List Event :=
  if cfg.batch_size ≤ buffer1.length then
    ((upsert_batch db buffer1 0).1, [], [Event.flushE buffer1])
  else
    (db, buffer1, [])

/-- The rate-limit block of the loop (`src/crawler.py` lines 119-121):
when the page's quota snapshot is below the buffer, block until its
`reset_at`. -/
def waitStep (cfg : Config) (rl : RateLimitInfo) : List Event :=
  if should_wait_for_rate_limit cfg rl then [Event.waitE rl.reset_at] else []

/-- The `while True` loop body of `crawl_star_range` from
`src/crawler.py`, fuel-indexed.  Returns the loop-exit state: range
fetched counter, remaining buffer, database, and the event trace, or
`none` when the fuel runs out before the loop exits. -/
def crawlLoop (env : Env) (cfg : Config) (q : String) :
    Nat → Option String → Nat → List RepositoryDTO → DB →
    Option (Nat × List RepositoryDTO × DB × List Event)
  | 0, _, _, _, _ => none
  | fuel + 1, cursor, range_fetched, buffer, db =>
    if 0 < range_fetched ∧ range_fetched % 500 = 0 ∧ cfg.repos_target ≤ get_count db then
      some (range_fetched, buffer, db, [])
    else
      let result := env.fetch q cursor
      let ev := Event.fetchE q cursor result
      if result.repositories = [] then
        some (range_fetched, buffer, db, [ev])
      else
        let buffer1 := buffer ++ result.repositories
        let rf1 := range_fetched + result.repositories.length
        let fs := flushStep cfg db buffer1
        let evs2 := waitStep cfg result.rate_limit
        if result.page_info.has_next_page then
          match crawlLoop env cfg q fuel result.page_info.end_cursor rf1 fs.2.1 fs.1 with
          | none => none
          | some (rf', buf', db', tr) => some (rf', buf', db', ev :: (fs.2.2 ++ evs2 ++ tr))
        else
          some (rf1, fs.2.1, fs.1, ev :: (fs.2.2 ++ evs2))

/-- Embedding of `crawl_star_range` from `src/crawler.py`: runs the page
loop and unconditionally flushes any remaining buffered records on exit.
Returns the per-range fetched count, the final database, and the trace. -/
def crawl_star_range (env : Env) (cfg : Config) (min_stars max_stars : Nat)
    (fuel : Nat) (db : DB) : Option (Nat × DB × List Event) :=
  let q := "stars:" ++ toString min_stars ++ ".." ++ toString max_stars
  match crawlLoop env cfg q fuel none 0 [] db with
  | none => none
  | some (rf, buf, db', tr) =>
    if buf = [] then some (rf, db', tr)
    else some (rf, (upsert_batch db' buf 0).1, tr ++ [Event.flushE buf])

/-- The slice loop of `run_crawler`: before each range the authoritative
database count is re-checked and the run stops once it meets the target.
Returns total fetched, final database, and the concatenated trace. -/
def runLoop (env : Env) (cfg : Config) (fuel : Nat) :
    List (Nat × Nat) → DB → Option (Nat × DB × List Event)
  | [], db => some (0, db, [])
  | (mn, mx) :: rest, db =>
    if cfg.repos_target ≤ get_count db then
      some (0, db, [])
    else
      match crawl_star_range env cfg mn mx fuel db with
      | none => none
      | some (rf, db', tr) =>
        match runLoop env cfg fuel rest db' with
        | none => none
        | some (tf, db'', tr') => some (rf + tf, db'', tr ++ tr')

/-- Embedding of `run_crawler` from `src/crawler.py`: iterates the
generated star ranges and returns the final persisted unique count as
queried from the store. -/
def run_crawler (env : Env) (cfg : Config) (fuel : Nat) (db : DB) :
    Option (Nat × DB × List Event) :=
  match runLoop env cfg fuel generate_star_ranges db with
  | none => none
  | some (_, db', tr) => some (get_count db', db', tr)

/-- All records returned by fetch calls in a trace, in order. -/
def fetchedRecords : List Event → List RepositoryDTO
  | [] => []
  | Event.fetchE _ _ res :: rest => res.repositories ++ fetchedRecords rest
  | _ :: rest => fetchedRecords rest

/-- All records handed to `upsert_batch` in a trace, in order. -/
def flushedRecords : List Event → List RepositoryDTO
  | [] => []
  | Event.flushE b :: rest => b ++ flushedRecords rest
  | _ :: rest => flushedRecords rest

/-- Number of fetch calls in a trace. -/
def numFetches : List Event → Nat
  | [] => 0
  | Event.fetchE _ _ _ :: rest => numFetches rest + 1
  | _ :: rest => numFetches rest

/-- True when a wait until `reset` occurs before the next fetch call in
the trace (or no further fetch occurs). -/
def waitClears (reset : String) : List Event → Bool
  | [] => true
  | Event.fetchE _ _ _ :: _ => false
  | Event.waitE r :: rest => if r = reset then true else waitClears reset rest
  | Event.flushE _ :: rest => waitClears reset rest

/-- Quota backpressure discipline of a trace: after every fetch whose
quota snapshot is below the buffer, a wait until that snapshot's
`reset_at` occurs before any further fetch. -/
def quotaOK (buf : Nat) : List Event → Bool
  | [] => true
  | Event.fetchE _ _ res :: rest =>
      (!decide (res.rate_limit.remaining < buf) || waitClears res.rate_limit.reset_at rest)
      && quotaOK buf rest
  | _ :: rest => quotaOK buf rest

/-- A remote corpus with no repositories: every fetch returns an empty
page with no next cursor. -/
def emptyEnv : Env := ⟨fun _ _ => ⟨[], ⟨false, none⟩, ⟨0, ""⟩⟩⟩

theorem runLoop_target_met (env : Env) (cfg : Config) (fuel : Nat)
    (ranges : List (Nat × Nat)) (db : DB)
    (h : cfg.repos_target ≤ get_count db) :
    runLoop env cfg fuel ranges db = some (0, db, []) := by
  cases ranges with
  | nil => rfl
  | cons p rest =>
    obtain ⟨mn, mx⟩ := p
    simp only [runLoop, if_pos h]

/-- C3: if the persisted unique count already meets the target before
any slice runs, `run_crawler` returns immediately with the current
persisted count, leaving the store untouched and issuing zero fetch
calls. -/
theorem run_crawler_converged (env : Env) (cfg : Config) (fuel : Nat)
    (db : DB) (h : cfg.repos_target ≤ get_count db) :
    ∃ tr, run_crawler env cfg fuel db = some (get_count db, db, tr)
      ∧ numFetches tr = 0 := by
  refine ⟨[], ?_, rfl⟩
  rw [run_crawler, runLoop_target_met env cfg fuel generate_star_ranges db h]

/-- C3 witness: with target 0 and an empty store the run returns at once
with zero fetches. -/
theorem run_crawler_converged_witness :
    ∃ tr, run_crawler emptyEnv ⟨0, 100, 5, 50, 1000⟩ 1 []
      = some (get_count [], [], tr) ∧ numFetches tr = 0 :=
  run_crawler_converged emptyEnv ⟨0, 100, 5, 50, 1000⟩ 1 [] (Nat.zero_le _)

theorem flushedRecords_append (t1 t2 : List Event) :
    flushedRecords (t1 ++ t2) = flushedRecords t1 ++ flushedRecords t2 := by
  induction t1 with
  | nil => rfl
  | cons e rest ih =>
    cases e with
    | fetchE q c r => simp [flushedRecords, ih]
    | flushE b => simp [flushedRecords, ih]
    | waitE r => simp [flushedRecords, ih]

theorem fetchedRecords_append (t1 t2 : List Event) :
    fetchedRecords (t1 ++ t2) = fetchedRecords t1 ++ fetchedRecords t2 := by
  induction t1 with
  | nil => rfl
  | cons e rest ih =>
    cases e with
    | fetchE q c r => simp [fetchedRecords, ih]
    | flushE b => simp [fetchedRecords, ih]
    | waitE r => simp [fetchedRecords, ih]

theorem flushStep_records (cfg : Config) (db : DB) (buffer1 : List RepositoryDTO) :
    flushedRecords (flushStep cfg db buffer1).2.2 ++ (flushStep cfg db buffer1).2.1
      = buffer1 := by
  unfold flushStep
  split
  · simp [flushedRecords]
  · simp [flushedRecords]

theorem flushStep_fetched (cfg : Config) (db : DB) (buffer1 : List RepositoryDTO) :
    fetchedRecords (flushStep cfg db buffer1).2.2 = [] := by
  unfold flushStep
  split
  · rfl
  · rfl

theorem waitStep_flushed (cfg : Config) (rl : RateLimitInfo) :
    flushedRecords (waitStep cfg rl) = [] := by
  unfold waitStep
  split
  · rfl
  · rfl

theorem waitStep_fetched (cfg : Config) (rl : RateLimitInfo) :
    fetchedRecords (waitStep cfg rl) = [] := by
  unfold waitStep
  split
  · rfl
  · rfl

theorem crawlLoop_flush_invariant (env : Env) (cfg : Config) (q : String) :
    ∀ (fuel : Nat) (cursor : Option String) (rf : Nat)
      (buffer : List RepositoryDTO) (db : DB) (rf' : Nat)
      (buf' : List RepositoryDTO) (db' : DB) (tr : List Event),
    crawlLoop env cfg q fuel cursor rf buffer db = some (rf', buf', db', tr) →
    flushedRecords tr ++ buf' = buffer ++ fetchedRecords tr
    ∧ rf' = rf + (fetchedRecords tr).length := by
  intro fuel
  induction fuel with
  | zero =>
    intro cursor rf buffer db rf' buf' db' tr h
    simp [crawlLoop] at h
  | succ fuel ih =>
    intro cursor rf buffer db rf' buf' db' tr h
    rw [crawlLoop] at h
    dsimp only at h
    split at h
    · simp only [Option.some.injEq, Prod.mk.injEq] at h
      obtain ⟨h1, h2, h3, h4⟩ := h
      subst h1; subst h2; subst h4
      simp [flushedRecords, fetchedRecords]
    · split at h
      · rename_i hbrk hemp
        simp only [Option.some.injEq, Prod.mk.injEq] at h
        obtain ⟨h1, h2, h3, h4⟩ := h
        subst h1; subst h2; subst h4
        constructor
        · simp [flushedRecords, fetchedRecords, hemp]
        · simp [fetchedRecords, hemp]
      · split at h
        · split at h
          · exact absurd h (by simp)
          · rename_i a b c t heq
            simp only [Option.some.injEq, Prod.mk.injEq] at h
            obtain ⟨h1, h2, h3, h4⟩ := h
            subst_vars
            obtain ⟨ihf, ihc⟩ := ih _ _ _ _ _ _ _ _ heq
            constructor
            · simp only [flushedRecords, fetchedRecords, flushedRecords_append,
                fetchedRecords_append, waitStep_flushed, waitStep_fetched,
                flushStep_fetched, List.append_nil, List.nil_append,
                List.append_assoc]
              rw [ihf, ← List.append_assoc, flushStep_records]
              exact List.append_assoc _ _ _
            · simp only [fetchedRecords, fetchedRecords_append, waitStep_fetched,
                flushStep_fetched, List.nil_append, List.append_nil,
                List.length_append, List.length_nil]
              omega
        · simp only [Option.some.injEq, Prod.mk.injEq] at h
          obtain ⟨h1, h2, h3, h4⟩ := h
          subst_vars
          constructor
          · simp only [flushedRecords, fetchedRecords, flushedRecords_append,
              fetchedRecords_append, waitStep_flushed, waitStep_fetched,
              flushStep_fetched, List.append_nil, List.nil_append]
            rw [flushStep_records]
          · simp only [fetchedRecords, fetchedRecords_append, waitStep_fetched,
              flushStep_fetched, List.nil_append, List.append_nil,
              List.length_append, List.length_nil]

/-- C5: for every terminating run of `crawl_star_range` — periodic
target stop, empty page, or no next cursor — the records handed to
`upsert_batch` across the slice are exactly the records returned by the
fetch calls, in order: the below-threshold remainder is flushed
unconditionally on exit and no fetched record is dropped; the returned
count is the number of records fetched. -/
theorem crawl_star_range_no_drop (env : Env) (cfg : Config)
    (mn mx fuel : Nat) (db : DB) (rf : Nat) (db' : DB) (tr : List Event)
    (h : crawl_star_range env cfg mn mx fuel db = some (rf, db', tr)) :
    flushedRecords tr = fetchedRecords tr
    ∧ rf = (fetchedRecords tr).length := by
  rw [crawl_star_range] at h
  cases hL : crawlLoop env cfg ("stars:" ++ toString mn ++ ".." ++ toString mx)
      fuel none 0 [] db with
  | none => rw [hL] at h; cases h
  | some v =>
    obtain ⟨rf0, buf, db0, tr0⟩ := v
    rw [hL] at h
    obtain ⟨hflush, hcount⟩ :=
      crawlLoop_flush_invariant env cfg _ fuel none 0 [] db rf0 buf db0 tr0 hL
    dsimp only at h
    by_cases hbuf : buf = []
    · rw [if_pos hbuf] at h
      simp only [Option.some.injEq, Prod.mk.injEq] at h
      obtain ⟨h1, h2, h3⟩ := h
      subst_vars
      constructor
      · simpa using hflush
      · rw [Nat.zero_add]
    · rw [if_neg hbuf] at h
      simp only [Option.some.injEq, Prod.mk.injEq] at h
      obtain ⟨h1, h2, h3⟩ := h
      subst_vars
      constructor
      · rw [flushedRecords_append, fetchedRecords_append]
        simp only [flushedRecords, fetchedRecords, List.append_nil]
        simpa using hflush
      · rw [fetchedRecords_append]
        simp only [fetchedRecords, List.append_nil]
        rw [Nat.zero_add]

/-- C5 witness: a slice returning one page of one record with no next
cursor flushes that record exactly once on exit. -/
theorem crawl_star_range_no_drop_witness :
    flushedRecords
        [Event.fetchE "stars:0..0" none
           ⟨[⟨"g1", "o", "n", 7⟩], ⟨false, none⟩, ⟨100, "t"⟩⟩,
         Event.flushE [⟨"g1", "o", "n", 7⟩]]
      = fetchedRecords
        [Event.fetchE "stars:0..0" none
           ⟨[⟨"g1", "o", "n", 7⟩], ⟨false, none⟩, ⟨100, "t"⟩⟩,
         Event.flushE [⟨"g1", "o", "n", 7⟩]]
    ∧ (1 : Nat) = (fetchedRecords
        [Event.fetchE "stars:0..0" none
           ⟨[⟨"g1", "o", "n", 7⟩], ⟨false, none⟩, ⟨100, "t"⟩⟩,
         Event.flushE [⟨"g1", "o", "n", 7⟩]]).length :=
  crawl_star_range_no_drop
    ⟨fun _ _ => ⟨[⟨"g1", "o", "n", 7⟩], ⟨false, none⟩, ⟨100, "t"⟩⟩⟩
    ⟨100, 100, 5, 50, 2⟩ 0 0 3 [] 1 [("g1", ⟨"o", "n", 7, 0, 0⟩)]
    [Event.fetchE "stars:0..0" none
       ⟨[⟨"g1", "o", "n", 7⟩], ⟨false, none⟩, ⟨100, "t"⟩⟩,
     Event.flushE [⟨"g1", "o", "n", 7⟩]]
    rfl

theorem waitClears_append_flush (r : String) (t : List Event)
    (b : List RepositoryDTO) :
    waitClears r (t ++ [Event.flushE b]) = waitClears r t := by
  induction t with
  | nil => rfl
  | cons e rest ih =>
    cases e with
    | fetchE q c res => rfl
    | flushE b2 => simp [waitClears, ih]
    | waitE r2 => simp [waitClears, ih]

theorem quotaOK_append_flush (buf : Nat) (t : List Event)
    (b : List RepositoryDTO) :
    quotaOK buf (t ++ [Event.flushE b]) = quotaOK buf t := by
  induction t with
  | nil => rfl
  | cons e rest ih =>
    cases e with
    | fetchE q c res => simp [quotaOK, ih, waitClears_append_flush]
    | flushE b2 => simp [quotaOK, ih]
    | waitE r2 => simp [quotaOK, ih]

theorem quotaOK_flushStep_skip (buf : Nat) (cfg : Config) (db : DB)
    (buffer1 : List RepositoryDTO) (t : List Event) :
    quotaOK buf ((flushStep cfg db buffer1).2.2 ++ t) = quotaOK buf t := by
  unfold flushStep
  split
  · simp [quotaOK]
  · simp [quotaOK]

theorem quotaOK_waitStep_skip (buf : Nat) (cfg : Config)
    (rl : RateLimitInfo) (t : List Event) :
    quotaOK buf (waitStep cfg rl ++ t) = quotaOK buf t := by
  unfold waitStep
  split
  · simp [quotaOK]
  · simp [quotaOK]

theorem quotaOK_waitStep (buf : Nat) (cfg : Config) (rl : RateLimitInfo) :
    quotaOK buf (waitStep cfg rl) = true := by
  unfold waitStep
  split
  · rfl
  · rfl

theorem waitClears_flushStep_wait (r : String) (cfg : Config) (db : DB)
    (buffer1 : List RepositoryDTO) (t : List Event) :
    waitClears r ((flushStep cfg db buffer1).2.2 ++ (Event.waitE r :: t)) = true := by
  unfold flushStep
  split
  · simp [waitClears]
  · simp [waitClears]

theorem crawlLoop_quota (env : Env) (cfg : Config) (q : String) :
    ∀ (fuel : Nat) (cursor : Option String) (rf : Nat)
      (buffer : List RepositoryDTO) (db : DB) (rf' : Nat)
      (buf' : List RepositoryDTO) (db' : DB) (tr : List Event),
    crawlLoop env cfg q fuel cursor rf buffer db = some (rf', buf', db', tr) →
    quotaOK cfg.rate_limit_buffer tr = true := by
  intro fuel
  induction fuel with
  | zero =>
    intro cursor rf buffer db rf' buf' db' tr h
    simp [crawlLoop] at h
  | succ fuel ih =>
    intro cursor rf buffer db rf' buf' db' tr h
    rw [crawlLoop] at h
    dsimp only at h
    split at h
    · simp only [Option.some.injEq, Prod.mk.injEq] at h
      obtain ⟨h1, h2, h3, h4⟩ := h
      subst_vars
      rfl
    · split at h
      · simp only [Option.some.injEq, Prod.mk.injEq] at h
        obtain ⟨h1, h2, h3, h4⟩ := h
        subst_vars
        simp [quotaOK, waitClears]
      · split at h
        · split at h
          · exact absurd h (by simp)
          · rename_i a b c t heq
            simp only [Option.some.injEq, Prod.mk.injEq] at h
            obtain ⟨h1, h2, h3, h4⟩ := h
            subst_vars
            have hq := ih _ _ _ _ _ _ _ _ heq
            simp only [quotaOK, Bool.and_eq_true]
            refine ⟨?_, ?_⟩
            · cases hw : should_wait_for_rate_limit cfg (env.fetch q cursor).rate_limit with
              | false =>
                have hd : decide ((env.fetch q cursor).rate_limit.remaining
                    < cfg.rate_limit_buffer) = false := hw
                simp [hd]
              | true =>
                have hwc : waitClears (env.fetch q cursor).rate_limit.reset_at
                    ((flushStep cfg db (buffer ++ (env.fetch q cursor).repositories)).2.2
                      ++ (waitStep cfg (env.fetch q cursor).rate_limit ++ t)) = true := by
                  rw [show waitStep cfg (env.fetch q cursor).rate_limit
                      = [Event.waitE (env.fetch q cursor).rate_limit.reset_at] from by
                    simp [waitStep, hw]]
                  simp only [List.singleton_append]
                  exact waitClears_flushStep_wait _ _ _ _ _
                simp [hwc]
            · rw [List.append_assoc, quotaOK_flushStep_skip,
                  quotaOK_waitStep_skip]
              exact hq
        · simp only [Option.some.injEq, Prod.mk.injEq] at h
          obtain ⟨h1, h2, h3, h4⟩ := h
          subst_vars
          simp only [quotaOK, Bool.and_eq_true]
          refine ⟨?_, ?_⟩
          · cases hw : should_wait_for_rate_limit cfg (env.fetch q cursor).rate_limit with
            | false =>
              have hd : decide ((env.fetch q cursor).rate_limit.remaining
                  < cfg.rate_limit_buffer) = false := hw
              simp [hd]
            | true =>
              have hwc : waitClears (env.fetch q cursor).rate_limit.reset_at
                  ((flushStep cfg db (buffer ++ (env.fetch q cursor).repositories)).2.2
                    ++ waitStep cfg (env.fetch q cursor).rate_limit) = true := by
                rw [show waitStep cfg (env.fetch q cursor).rate_limit
                    = [Event.waitE (env.fetch q cursor).rate_limit.reset_at] from by
                  simp [waitStep, hw]]
                exact waitClears_flushStep_wait _ _ _ _ _
              simp [hwc]
          · rw [quotaOK_flushStep_skip]
            exact quotaOK_waitStep _ _ _

/-- C7: after every fetched page the harvester consults the quota check
— which returns true exactly when the snapshot's remaining is below the
configured buffer — and whenever the last page's snapshot is below the
buffer, the blocking wait until its `reset_at` occurs in the trace
before any further fetch call. -/
theorem crawl_star_range_quota_backpressure :
    (∀ (env : Env) (cfg : Config) (mn mx fuel : Nat) (db : DB)
       (rf : Nat) (db' : DB) (tr : List Event),
      crawl_star_range env cfg mn mx fuel db = some (rf, db', tr) →
      quotaOK cfg.rate_limit_buffer tr = true)
    ∧ (∀ (cfg : Config) (rl : RateLimitInfo),
      should_wait_for_rate_limit cfg rl
        = decide (rl.remaining < cfg.rate_limit_buffer)) := by
  constructor
  · intro env cfg mn mx fuel db rf db' tr h
    rw [crawl_star_range] at h
    cases hL : crawlLoop env cfg ("stars:" ++ toString mn ++ ".." ++ toString mx)
        fuel none 0 [] db with
    | none => rw [hL] at h; cases h
    | some v =>
      obtain ⟨rf0, buf, db0, tr0⟩ := v
      rw [hL] at h
      have hq := crawlLoop_quota env cfg _ fuel none 0 [] db rf0 buf db0 tr0 hL
      dsimp only at h
      by_cases hbuf : buf = []
      · rw [if_pos hbuf] at h
        simp only [Option.some.injEq, Prod.mk.injEq] at h
        obtain ⟨h1, h2, h3⟩ := h
        subst_vars
        exact hq
      · rw [if_neg hbuf] at h
        simp only [Option.some.injEq, Prod.mk.injEq] at h
        obtain ⟨h1, h2, h3⟩ := h
        subst_vars
        rw [quotaOK_append_flush]
        exact hq
  · intro cfg rl
    rfl

/-- C7 witness: a page returning a snapshot of 10 remaining against a
buffer of 50 triggers the wait before the slice ends, and the quota
discipline holds on the resulting trace. -/
theorem crawl_star_range_quota_backpressure_witness :
    quotaOK 50
        [Event.fetchE "stars:0..0" none
           ⟨[⟨"g1", "o", "n", 7⟩], ⟨false, none⟩, ⟨10, "t"⟩⟩,
         Event.waitE "t",
         Event.flushE [⟨"g1", "o", "n", 7⟩]] = true
    ∧ should_wait_for_rate_limit ⟨100, 100, 5, 50, 2⟩ ⟨10, "t"⟩
        = decide ((10 : Nat) < 50) := by
  constructor
  · exact crawl_star_range_quota_backpressure.1
      ⟨fun _ _ => ⟨[⟨"g1", "o", "n", 7⟩], ⟨false, none⟩, ⟨10, "t"⟩⟩⟩
      ⟨100, 100, 5, 50, 2⟩ 0 0 3 [] 1 [("g1", ⟨"o", "n", 7, 0, 0⟩)]
      [Event.fetchE "stars:0..0" none
         ⟨[⟨"g1", "o", "n", 7⟩], ⟨false, none⟩, ⟨10, "t"⟩⟩,
       Event.waitE "t",
       Event.flushE [⟨"g1", "o", "n", 7⟩]]
      rfl
  · exact crawl_star_range_quota_backpressure.2 ⟨100, 100, 5, 50, 2⟩ ⟨10, "t"⟩

theorem runLoop_emptyEnv (cfg : Config) (f : Nat) :
    ∀ (ranges : List (Nat × Nat)) (db : DB),
    ∃ tr, runLoop emptyEnv cfg (f + 1) ranges db = some (0, db, tr) := by
  intro ranges
  induction ranges with
  | nil => intro db; exact ⟨[], rfl⟩
  | cons p rest ih =>
    intro db
    obtain ⟨mn, mx⟩ := p
    by_cases h : cfg.repos_target ≤ get_count db
    · refine ⟨[], ?_⟩
      simp only [runLoop, if_pos h]
    · obtain ⟨tr', htr'⟩ := ih db
      refine ⟨Event.fetchE ("stars:" ++ toString mn ++ ".." ++ toString mx) none
        ⟨[], ⟨false, none⟩, ⟨0, ""⟩⟩ :: tr', ?_⟩
      simp only [runLoop, if_neg h]
      rw [show crawl_star_range emptyEnv cfg mn mx (f + 1) db
          = some (0, db, [Event.fetchE ("stars:" ++ toString mn ++ ".." ++ toString mx)
              none ⟨[], ⟨false, none⟩, ⟨0, ""⟩⟩]) from rfl]
      dsimp only
      rw [htr']
      rfl

/-- C8: `run_crawler` always returns the final persisted unique count as
queried from the store; in particular, with an empty remote corpus the
slice sequence is exhausted before the target is met and the run still
terminates normally, returning whatever count the store holds. -/
theorem run_crawler_final_count :
    (∀ (env : Env) (cfg : Config) (fuel : Nat) (db : DB)
       (c : Nat) (db' : DB) (tr : List Event),
      run_crawler env cfg fuel db = some (c, db', tr) → c = get_count db')
    ∧ (∀ (cfg : Config) (fuel : Nat) (db : DB), 1 ≤ fuel →
      ∃ tr, run_crawler emptyEnv cfg fuel db = some (get_count db, db, tr)) := by
  constructor
  · intro env cfg fuel db c db' tr h
    rw [run_crawler] at h
    cases hL : runLoop env cfg fuel generate_star_ranges db with
    | none => rw [hL] at h; cases h
    | some v =>
      obtain ⟨tf, d, t⟩ := v
      rw [hL] at h
      simp only [Option.some.injEq, Prod.mk.injEq] at h
      obtain ⟨h1, h2, h3⟩ := h
      subst_vars
      rfl
  · intro cfg fuel db hf
    cases fuel with
    | zero => omega
    | succ f =>
      obtain ⟨tr, htr⟩ := runLoop_emptyEnv cfg f generate_star_ranges db
      refine ⟨tr, ?_⟩
      rw [run_crawler, htr]

/-- C8 witness: with target 0 the run returns the store count at once,
and with an unreachable target over an empty corpus all slices are
exhausted and the run still returns the store count. -/
theorem run_crawler_final_count_witness :
    ((0 : Nat) = get_count [])
    ∧ ∃ tr, run_crawler emptyEnv ⟨1000000, 100, 5, 50, 1000⟩ 1 []
        = some (get_count [], [], tr) := by
  constructor
  · exact run_crawler_final_count.1 emptyEnv ⟨0, 100, 5, 50, 1000⟩ 1 [] 0 [] [] rfl
  · exact run_crawler_final_count.2 ⟨1000000, 100, 5, 50, 1000⟩ 1 [] (le_refl 1)

end GithubCrawler
